import Mathlib

/-
Verification of the circular-buffer delay engine in
circularBufferDelay/Source/PluginProcessor.h / PluginProcessor.cpp.

Shallow embedding conventions:
* Audio samples are modelled as exact rationals.
* A channel data pointer (a C++ float pointer) is modelled as a total
  function from the integers to the rationals: the pointer designates a
  position inside the host's memory, and pointer arithmetic - including
  offsets before the block start, which the source performs in its split
  copy - is an integer offset of the argument.
* One channel of the delay buffer is a function from naturals to rationals
  together with the capacity field of the state.
* The C++ int cursor arithmetic stays far below 2^31 on every state
  considered here, so natural-number arithmetic models it exactly on the
  stated domains.
-/

namespace CircularBufferDelay

/-- The JUCE AudioBuffer copyFromWithRamp call on one destination channel:
sample i of the source pointer is stored at destStart + i multiplied by the
gain startGain + i * (endGain - startGain) / numSamples; every other slot
keeps its old content. When startGain = endGain this is a constant-gain
copy. -/
def copyFromWithRamp (buf : ℕ → ℚ) (destStart : ℕ) (src : ℤ → ℚ)
    (numSamples : ℕ) (startGain endGain : ℚ) : ℕ → ℚ :=
  fun j =>
    if destStart ≤ j ∧ j < destStart + numSamples then
      (startGain + ((j : ℚ) - (destStart : ℚ)) * ((endGain - startGain) / (numSamples : ℚ)))
        * src ((j : ℤ) - (destStart : ℤ))
    else buf j

/-- The per-channel write of processBlock (PluginProcessor.cpp, the loop
body over channels): if delayBufferSize > bufferSize + writePosition, one
call copyFromWithRamp(channel, writePosition, channelData, bufferSize,
0.1, 0.1); otherwise numSamplesToEnd = delayBufferSize - writePosition
samples are copied to the end, then numSamplesAtStart = bufferSize -
numSamplesToEnd samples are copied to the start, read from the pointer
channelData - numSamplesToEnd (the source's pointer arithmetic, kept
verbatim). -/
def writeChannel (delayBufferSize writePosition bufferSize : ℕ)
    (channelData : ℤ → ℚ) (buf : ℕ → ℚ) : ℕ → ℚ :=
  if bufferSize + writePosition < delayBufferSize then
    copyFromWithRamp buf writePosition channelData bufferSize (1/10) (1/10)
  else
    let numSamplesToEnd := delayBufferSize - writePosition
    let numSamplesAtStart := bufferSize - numSamplesToEnd
    copyFromWithRamp
      (copyFromWithRamp buf writePosition channelData numSamplesToEnd (1/10) (1/10))
      0 (fun i => channelData (i - (numSamplesToEnd : ℤ))) numSamplesAtStart (1/10) (1/10)

/-- The processor state that processBlock reads and writes: the delay
buffer (one sample function per channel, all channels sized to capacity)
and the single shared write cursor (the int member writePosition of
CircularBufferDelayAudioProcessor, initialised to 0 in the header). -/
structure ProcState where
  capacity : ℕ
  delayBuffer : ℕ → ℕ → ℚ
  writePosition : ℕ

/-- processBlock from PluginProcessor.cpp: clears every output channel with
index in [totalNumInputChannels, totalNumOutputChannels) over [0,
bufferSize); for every input channel copies the host block into the delay
buffer via writeChannel at the shared write cursor; finally advances the
cursor by writePosition = (writePosition + bufferSize) % delayBufferSize.
The host buffer is never written from the delay buffer: the first
component of the result is the host buffer after the clear loop only. -/
def processBlock (totalNumInputChannels totalNumOutputChannels bufferSize : ℕ)
    (buffer : ℕ → ℤ → ℚ) (s : ProcState) : (ℕ → ℤ → ℚ) × ProcState :=
  let cleared : ℕ → ℤ → ℚ := fun ch i =>
    if totalNumInputChannels ≤ ch ∧ ch < totalNumOutputChannels ∧ 0 ≤ i ∧ i < (bufferSize : ℤ)
    then 0 else buffer ch i
  let newDelay : ℕ → ℕ → ℚ := fun ch =>
    if ch < totalNumInputChannels
    then writeChannel s.capacity s.writePosition bufferSize (cleared ch) (s.delayBuffer ch)
    else s.delayBuffer ch
  (cleared,
   { capacity := s.capacity
     delayBuffer := newDelay
     writePosition := (s.writePosition + bufferSize) % s.capacity })

/-- prepareToPlay from PluginProcessor.cpp: sets the delay buffer size to
(int)(sampleRate * 2.0) - truncation of the C++ double-to-int cast,
modelled by the floor for the nonnegative rates considered - via
delayBuffer.setSize, whose default flags neither keep nor clear the
contents, so the resulting contents are whatever memory the allocation
yields; they enter the model as the explicit newContents argument. The
member writePosition is not touched by the source. -/
def prepareToPlay (sampleRate : ℚ) (newContents : ℕ → ℕ → ℚ) (s : ProcState) : ProcState :=
  { capacity := (⌊sampleRate * 2⌋).toNat
    delayBuffer := newContents
    writePosition := s.writePosition }

/-- Modelled from the spec: the source contains no read or mix path, so the
spec's output equation is embedded from its own words for comparison -
read cursor = (writeCursor - delayLength + capacity) mod capacity and
output[n] = dryMix * input[n] + wetMix * delayed[n], delayed[n] being the
buffer sample at (readCursor + n) mod capacity. -/
def specMixOutput (cap w d : ℕ) (dryMix wetMix : ℚ) (buf : ℕ → ℚ)
    (input : ℤ → ℚ) (n : ℕ) : ℚ :=
  let readCursor := (w + cap - d) % cap
  dryMix * input (n : ℤ) + wetMix * buf ((readCursor + n) % cap)

/-- Modelled from the spec: setDelayTime is absent from the source; the
spec defines the resulting delay length in samples as
clamp(round(seconds * sampleRate), 0, capacity - 1). -/
def setDelayTime (seconds sampleRate : ℚ) (capacity : ℕ) : ℤ :=
  max 0 (min (round (seconds * sampleRate)) ((capacity : ℤ) - 1))

/-- The states reached after each successive processBlock call of a list of
blocks (each block: its length and its host buffer). -/
def trace (nIn nOut : ℕ) (blocks : List (ℕ × (ℕ → ℤ → ℚ))) (s : ProcState) :
    List ProcState :=
  match blocks with
  | [] => []
  | (bs, buffer) :: rest =>
    let s2 := (processBlock nIn nOut bs buffer s).2
    s2 :: trace nIn nOut rest s2

/-- The concatenated host-buffer output of one channel over a list of
successive processBlock calls. -/
def runOutputs (nIn nOut : ℕ) (blocks : List (ℕ × (ℕ → ℤ → ℚ))) (s : ProcState)
    (ch : ℕ) : List ℚ :=
  match blocks with
  | [] => []
  | (bs, buffer) :: rest =>
    let r := processBlock nIn nOut bs buffer s
    ((List.range bs).map (fun i => r.1 ch (i : ℤ))) ++ runOutputs nIn nOut rest r.2 ch

lemma processBlock_capacity (nIn nOut bs : ℕ) (buffer : ℕ → ℤ → ℚ) (s : ProcState) :
    (processBlock nIn nOut bs buffer s).2.capacity = s.capacity := rfl

lemma trace_writePosition_lt (nIn nOut : ℕ) (blocks : List (ℕ × (ℕ → ℤ → ℚ))) :
    ∀ s : ProcState, 0 < s.capacity →
      ∀ t ∈ trace nIn nOut blocks s, t.writePosition < s.capacity := by
  induction blocks with
  | nil =>
    intro s _ t ht
    simp [trace] at ht
  | cons b rest ih =>
    intro s hcap t ht
    obtain ⟨bs, buffer⟩ := b
    simp only [trace, List.mem_cons] at ht
    rcases ht with rfl | ht
    · exact Nat.mod_lt _ hcap
    · have hc2 : (processBlock nIn nOut bs buffer s).2.capacity = s.capacity := rfl
      have := ih (processBlock nIn nOut bs buffer s).2 (by rw [hc2]; exact hcap) t ht
      rwa [hc2] at this

/-- Claim C1: the spec demands that the stored region hold exactly the
input block in order. The code stores the input scaled by the constant
gain 1/10 (copyFromWithRamp is called with start and end gain 0.1), and in
the split path the second copy reads from the pointer channelData -
numSamplesToEnd, i.e. from before the block: with capacity 8, write cursor
6 and block length 4, slot 0 receives 1/10 of input[-2] and slot 1
receives 1/10 of input[-1] instead of input[2] and input[3]. -/
theorem c1_store_evaluation :
    writeChannel 8 0 4 (fun _ => 1) (fun _ => 0) 0 = 1/10 ∧ (1/10 : ℚ) ≠ 1 ∧
    writeChannel 8 6 4 (fun i => (i : ℚ)) (fun _ => 0) 0 = -(1/5) ∧
    writeChannel 8 6 4 (fun i => (i : ℚ)) (fun _ => 0) 1 = -(1/10) := by
  refine ⟨?_, by norm_num, ?_, ?_⟩ <;> norm_num [writeChannel, copyFromWithRamp]

/-- Claim C2: the spec demands output[n] = dryMix * input[n] + wetMix *
delayed[n] with the delayed samples read at the spec's read cursor. The
code's processBlock never reads the delay buffer: on a state with capacity
4, write cursor 2, a delayed sample 1 at the read position for delay 2,
zero input, dry 0 and wet 1, the spec's output sample is 1, while the
code's output sample is the untouched input 0. -/
theorem c2_no_read_evaluation :
    (processBlock 1 1 1 (fun _ _ => 0)
        { capacity := 4, delayBuffer := fun _ i => if i = 0 then 1 else 0,
          writePosition := 2 }).1 0 0 = 0 ∧
    specMixOutput 4 2 2 0 1 (fun i => if i = 0 then 1 else 0) (fun _ => 0) 0 = 1 ∧
    (0 : ℚ) ≠ 1 := by
  refine ⟨?_, ?_, by norm_num⟩
  · norm_num [processBlock]
  · norm_num [specMixOutput]

/-- Claim C3: the spec demands that every input index read lie in [0,
blockSize). With capacity 8, write cursor 5 and block length 5 the split
path's second copy reads input[-3] and input[-2]: two inputs that agree on
every index of [0, 5) but differ before the block produce different stored
buffers, so the code reads from before the start of the input block. -/
theorem c3_out_of_block_read :
    (List.range 5).map (fun i => (fun k : ℤ => if k < 0 then (7 : ℚ) else 0) (i : ℤ))
      = (List.range 5).map (fun _ => (0 : ℚ)) ∧
    writeChannel 8 5 5 (fun k => if k < 0 then (7 : ℚ) else 0) (fun _ => 0) 0 = 7/10 ∧
    writeChannel 8 5 5 (fun _ => 0) (fun _ => 0) 0 = 0 := by
  refine ⟨by decide, ?_, ?_⟩ <;> norm_num [writeChannel, copyFromWithRamp]

/-- Claim C4: every processBlock call advances the single shared write
cursor to (writePosition + bufferSize) % capacity, and over any sequence
of calls from a state with positive capacity the cursor stays inside [0,
capacity) after each call. -/
theorem c4_cursor_advance (nIn nOut bs : ℕ) (buffer : ℕ → ℤ → ℚ) (s : ProcState)
    (blocks : List (ℕ × (ℕ → ℤ → ℚ))) (hcap : 0 < s.capacity)
    (_hbs : ∀ b ∈ blocks, b.1 ≤ s.capacity) :
    (processBlock nIn nOut bs buffer s).2.writePosition
        = (s.writePosition + bs) % s.capacity ∧
    ∀ t ∈ trace nIn nOut blocks s, t.writePosition < s.capacity :=
  ⟨rfl, trace_writePosition_lt nIn nOut blocks s hcap⟩

/-- Claim C4, witness: concrete run with capacity 4, cursor 1, a call of
length 2 and a subsequent sequence of blocks of lengths 3 and 4. -/
theorem c4_cursor_advance_witness :
    (processBlock 1 1 2 (fun _ _ => 0)
        { capacity := 4, delayBuffer := fun _ _ => 0, writePosition := 1 }).2.writePosition
      = (1 + 2) % 4 ∧
    ∀ t ∈ trace 1 1 [(3, fun _ _ => 0), (4, fun _ _ => 0)]
        ({ capacity := 4, delayBuffer := fun _ _ => 0, writePosition := 1 } : ProcState),
      t.writePosition < 4 :=
  c4_cursor_advance 1 1 2 (fun _ _ => 0)
    { capacity := 4, delayBuffer := fun _ _ => 0, writePosition := 1 }
    [(3, fun _ _ => 0), (4, fun _ _ => 0)] (by norm_num) (by simp)

/-- Claim C5: the spec demands that configuration reset the write cursor
to 0 and zero-fill the buffer. The source's prepareToPlay only resizes the
buffer - setSize with default flags, whose resulting contents are whatever
the allocation yields - and never touches writePosition: from a state with
cursor 100 and newly allocated contents all 3, the capacity is set to
(int)(44100 * 2.0) = 88200 but the cursor stays 100 and a stored sample is
3, not 0. -/
theorem c5_prepare_evaluation :
    (prepareToPlay 44100 (fun _ _ => 3)
        { capacity := 88200, delayBuffer := fun _ _ => 0, writePosition := 100 }).capacity
      = 88200 ∧
    (prepareToPlay 44100 (fun _ _ => 3)
        { capacity := 88200, delayBuffer := fun _ _ => 0, writePosition := 100 }).writePosition
      = 100 ∧
    (prepareToPlay 44100 (fun _ _ => 3)
        { capacity := 88200, delayBuffer := fun _ _ => 0, writePosition := 100 }).delayBuffer 0 0
      = 3 := by
  refine ⟨?_, rfl, rfl⟩
  show (⌊(44100 : ℚ) * 2⌋).toNat = 88200
  norm_num
  rfl

/-- Claim C6: the spec demands that an impulse fed with wet 1 / dry 0 and
delay length 2 reappear in the concatenated output at index k + d = 2.
The code's concatenated output over four one-sample blocks is the input
stream itself, [1, 0, 0, 0]: the impulse stays at index 0 and index 2 is
0, not the spec's [0, 0, 1, 0]. -/
theorem c6_impulse_evaluation :
    runOutputs 1 1 [(1, fun _ i => if i = 0 then 1 else 0), (1, fun _ _ => 0),
        (1, fun _ _ => 0), (1, fun _ _ => 0)]
      { capacity := 4, delayBuffer := fun _ _ => 0, writePosition := 0 } 0 = [1, 0, 0, 0] ∧
    ([1, 0, 0, 0] : List ℚ) ≠ [0, 0, 1, 0] := by
  constructor
  · norm_num [runOutputs, processBlock, show List.range 1 = [0] from rfl]
  · simp

/-- Claim C7: setDelayTime is absent from the source and is modelled from
the spec. For a positive sample rate, a capacity obtained as
round(sampleRate * maxDelaySeconds), and any requested time beyond
maxDelaySeconds, the call returns normally and the delay length saturates
to capacity - 1. -/
theorem c7_saturation (seconds sampleRate maxDelaySeconds : ℚ) (capacity : ℕ)
    (hs : 0 < sampleRate)
    (hcap : capacity = (round (sampleRate * maxDelaySeconds)).toNat)
    (h0 : 0 < capacity) (hgt : maxDelaySeconds < seconds) :
    setDelayTime seconds sampleRate capacity = (capacity : ℤ) - 1 := by
  have hnn : 0 ≤ round (sampleRate * maxDelaySeconds) := by
    by_contra hneg
    push_neg at hneg
    have h1 : (round (sampleRate * maxDelaySeconds)).toNat = 0 :=
      Int.toNat_of_nonpos (le_of_lt hneg)
    omega
  have hr : round (sampleRate * maxDelaySeconds) = (capacity : ℤ) := by
    rw [hcap, Int.toNat_of_nonneg hnn]
  have hle : sampleRate * maxDelaySeconds ≤ seconds * sampleRate := by
    rw [mul_comm seconds sampleRate]
    exact mul_le_mul_of_nonneg_left (le_of_lt hgt) (le_of_lt hs)
  have hmono : round (sampleRate * maxDelaySeconds) ≤ round (seconds * sampleRate) := by
    rw [round_eq, round_eq]
    exact Int.floor_mono (by linarith)
  have h1 : (capacity : ℤ) - 1 ≤ round (seconds * sampleRate) := by omega
  unfold setDelayTime
  rw [min_eq_right h1, max_eq_right (by omega : (0 : ℤ) ≤ (capacity : ℤ) - 1)]

/-- Claim C7, witness: requesting 3 seconds at sample rate 10 with maximum
delay 2 seconds (capacity 20) yields delay length 19. -/
theorem c7_saturation_witness : setDelayTime 3 10 20 = 19 :=
  c7_saturation 3 10 2 20 (by norm_num) (by norm_num [round_eq]; rfl)
    (by norm_num) (by norm_num)

/-- Claim C8, amended: no validation or error reporting exists -
prepareToPlay unconditionally applies its arguments, resizing the delay
buffer to (int)(sampleRate * 2.0) and carrying the write cursor over
unchanged, for any sample rate whatsoever. -/
theorem c8_unvalidated_config (sampleRate : ℚ) (newContents : ℕ → ℕ → ℚ)
    (s : ProcState) :
    (prepareToPlay sampleRate newContents s).capacity = (⌊sampleRate * 2⌋).toNat ∧
    (prepareToPlay sampleRate newContents s).writePosition = s.writePosition :=
  ⟨rfl, rfl⟩

/-- Claim C8, counterexample: the malformed configuration sampleRate = 0
(the spec requires a positive rate and capacity) is not rejected and does
not leave the prior state unchanged - it takes effect, collapsing the
capacity from 88200 to 0. -/
theorem c8_rejection_counterexample :
    (prepareToPlay 0 (fun _ _ => 0)
        { capacity := 88200, delayBuffer := fun _ _ => 0, writePosition := 7 }).capacity = 0 ∧
    (0 : ℕ) ≠ 88200 := by
  constructor
  · show (⌊(0 : ℚ) * 2⌋).toNat = 0
    norm_num
  · decide

/-- Claim C9, amended: every per-block copy into the ring buffer applies
copyFromWithRamp with startGain = endGain = 0.1, i.e. the stored samples
equal the source samples multiplied by the constant gain 1/10 - a
gain-applied copy, but with no ramp-in or ramp-out, and in the split path
the second copy's source is offset by -(capacity - writePosition). -/
theorem c9_constant_gain_store (cap w bs : ℕ) (input : ℤ → ℚ) (buf : ℕ → ℚ)
    (j : ℕ) (hw : w < cap) (hb : bs ≤ cap) :
    (bs + w < cap → w ≤ j → j < w + bs →
      writeChannel cap w bs input buf j = 1/10 * input ((j : ℤ) - (w : ℤ))) ∧
    (cap ≤ bs + w → w ≤ j → j < cap →
      writeChannel cap w bs input buf j = 1/10 * input ((j : ℤ) - (w : ℤ))) ∧
    (cap ≤ bs + w → j < bs - (cap - w) →
      writeChannel cap w bs input buf j
        = 1/10 * input ((j : ℤ) - ((cap - w : ℕ) : ℤ))) := by
  refine ⟨fun h h1 h2 => ?_, fun h h1 h2 => ?_, fun h hj => ?_⟩
  · unfold writeChannel
    rw [if_pos h]
    unfold copyFromWithRamp
    rw [if_pos ⟨h1, h2⟩]
    simp
  · unfold writeChannel
    rw [if_neg (by omega)]
    show copyFromWithRamp
        (copyFromWithRamp buf w input (cap - w) (1/10) (1/10))
        0 (fun i => input (i - ((cap - w : ℕ) : ℤ))) (bs - (cap - w)) (1/10) (1/10) j
      = 1/10 * input ((j : ℤ) - (w : ℤ))
    unfold copyFromWithRamp
    rw [if_neg (by omega), if_pos (by omega : w ≤ j ∧ j < w + (cap - w))]
    simp
  · unfold writeChannel
    rw [if_neg (by omega)]
    show copyFromWithRamp
        (copyFromWithRamp buf w input (cap - w) (1/10) (1/10))
        0 (fun i => input (i - ((cap - w : ℕ) : ℤ))) (bs - (cap - w)) (1/10) (1/10) j
      = 1/10 * input ((j : ℤ) - ((cap - w : ℕ) : ℤ))
    unfold copyFromWithRamp
    rw [if_pos (by omega : 0 ≤ j ∧ j < 0 + (bs - (cap - w)))]
    simp

/-- Claim C9, witness: constant-gain stores at concrete indices of the
contiguous path, the split path's end region and the split path's start
region. -/
theorem c9_constant_gain_store_witness :
    writeChannel 8 2 4 (fun _ => 1) (fun _ => 0) 3 = 1/10 * 1 ∧
    writeChannel 8 6 4 (fun _ => 1) (fun _ => 0) 7 = 1/10 * 1 ∧
    writeChannel 8 6 4 (fun _ => 1) (fun _ => 0) 1 = 1/10 * 1 :=
  ⟨(c9_constant_gain_store 8 2 4 (fun _ => 1) (fun _ => 0) 3 (by norm_num)
      (by norm_num)).1 (by norm_num) (by norm_num) (by norm_num),
   (c9_constant_gain_store 8 6 4 (fun _ => 1) (fun _ => 0) 7 (by norm_num)
      (by norm_num)).2.1 (by norm_num) (by norm_num) (by norm_num),
   (c9_constant_gain_store 8 6 4 (fun _ => 1) (fun _ => 0) 1 (by norm_num)
      (by norm_num)).2.2 (by norm_num) (by norm_num)⟩

/-- Claim C9, counterexample: with a block of 10 constant-one samples
written contiguously, all ten stored samples equal 1/10 - the write gain
is identical at every sample of the block, so no linear ramp-in/ramp-out
over a fraction of the block occurs. -/
theorem c9_ramp_counterexample :
    (List.range 10).map (writeChannel 16 0 10 (fun _ => 1) (fun _ => 0))
      = List.replicate 10 (1/10) := by
  norm_num [writeChannel, copyFromWithRamp, List.range_succ, List.replicate_succ]

/-- Claim C10: processBlock leaves every input channel of the host buffer
exactly as it arrived (the delay buffer is never read back into the
output, so the returned host buffer does not depend on the processor
state), and clears every output channel at or above the input channel
count to zero over the block. -/
theorem c10_frame (nIn nOut bs : ℕ) (buffer : ℕ → ℤ → ℚ) (s t : ProcState)
    (ch : ℕ) (i : ℤ) :
    (ch < nIn → (processBlock nIn nOut bs buffer s).1 ch i = buffer ch i) ∧
    (nIn ≤ ch → ch < nOut → 0 ≤ i → i < (bs : ℤ) →
      (processBlock nIn nOut bs buffer s).1 ch i = 0) ∧
    (processBlock nIn nOut bs buffer s).1 = (processBlock nIn nOut bs buffer t).1 := by
  refine ⟨fun h => ?_, fun h1 h2 h3 h4 => ?_, rfl⟩
  · show (if nIn ≤ ch ∧ ch < nOut ∧ 0 ≤ i ∧ i < (bs : ℤ) then 0 else buffer ch i)
      = buffer ch i
    rw [if_neg (by omega)]
  · show (if nIn ≤ ch ∧ ch < nOut ∧ 0 ≤ i ∧ i < (bs : ℤ) then 0 else buffer ch i) = 0
    rw [if_pos ⟨h1, h2, h3, h4⟩]

/-- Claim C10, witness: with one input channel and two output channels,
the input channel's sample 5 passes through unchanged and the extra
output channel is cleared to 0. -/
theorem c10_frame_witness :
    (processBlock 1 2 3 (fun _ _ => 5)
        { capacity := 4, delayBuffer := fun _ _ => 9, writePosition := 0 }).1 0 0 = 5 ∧
    (processBlock 1 2 3 (fun _ _ => 5)
        { capacity := 4, delayBuffer := fun _ _ => 9, writePosition := 0 }).1 1 0 = 0 :=
  ⟨(c10_frame 1 2 3 (fun _ _ => 5)
      { capacity := 4, delayBuffer := fun _ _ => 9, writePosition := 0 }
      { capacity := 4, delayBuffer := fun _ _ => 9, writePosition := 0 } 0 0).1
      (by norm_num),
   (c10_frame 1 2 3 (fun _ _ => 5)
      { capacity := 4, delayBuffer := fun _ _ => 9, writePosition := 0 }
      { capacity := 4, delayBuffer := fun _ _ => 9, writePosition := 0 } 1 0).2.1
      (by norm_num) (by norm_num) (by norm_num) (by norm_num)⟩

end CircularBufferDelay
